import Mathlib

/-!
Verification development for `scipy/spatial/procrustes.py`.

The module exposes one function, `procrustes(data1, data2)`, which
standardizes two equally-shaped point matrices (centering each to zero
column means and scaling each to unit Frobenius norm), invokes the
orthogonal Procrustes solver on the standardized pair, applies the
resulting orthogonal transform and scale to the second matrix, and
returns both matrices together with the scalar disparity.

Real (`numpy.double`) arithmetic is embedded as `ℝ`.  A 2-D array is a
`Matrix (Fin n) (Fin k) ℝ`; the argument of `procrustes` (an arbitrary
`np.asarray` result, whose number of dimensions is checked at run time)
is embedded as a shape together with flat data (`NDArray`).  The four
`ValueError` sites of the source are the four constructors of `PErr`,
and a run that raises is an `Except.error`.

`scipy.linalg.orthogonal_procrustes` is imported by the source but its
code is not part of this repository's files, so it is modelled from the
spec (see `orthogonal_procrustes` below); likewise the SVD primitive it
relies on is an external routine, modelled as an oracle returning a
factorization, with `IsSVDOf` stating the properties the spec assigns
to it (orthogonal factors, non-negative singular values in descending
order).
-/

set_option maxHeartbeats 1000000

open scoped Classical

open Matrix

noncomputable section

abbrev Mat (n k : ℕ) : Type := Matrix (Fin n) (Fin k) ℝ

/-- The four distinct `ValueError` sites of `procrustes`:
`"Input matrices must be two-dimensional"`,
`"Input matrices must be of same shape"`,
`"Input matrices must be >0 rows and >0 cols"`,
`"input matrices must contain >1 unique points"`. -/
inductive PErr where
  | dimensionality
  | shapeMismatch
  | emptyInput
  | degenerateData
deriving DecidableEq

/-- `np.mean(A, 0)`: the mean of column `j`. -/
def colMean {n k : ℕ} (A : Mat n k) (j : Fin k) : ℝ := (∑ i, A i j) / n

/-- `A - np.mean(A, 0)`: subtract each column's mean from its entries. -/
def centerMat {n k : ℕ} (A : Mat n k) : Mat n k :=
  Matrix.of fun i j => A i j - colMean A j

/-- Sum of the squared entries of a matrix. -/
def ssq {n k : ℕ} (A : Mat n k) : ℝ := ∑ i, ∑ j, (A i j) ^ 2

/-- `np.linalg.norm(A)` for a 2-D array: the Frobenius norm. -/
def frobNorm {n k : ℕ} (A : Mat n k) : ℝ := Real.sqrt (ssq A)

/-- `A / np.linalg.norm(A)`: scale a matrix to unit Frobenius norm. -/
def normalizeMat {n k : ℕ} (A : Mat n k) : Mat n k :=
  Matrix.of fun i j => A i j / frobNorm A

/-- The standardization the orchestrator applies to each input:
center, then scale to unit Frobenius norm. -/
def standardize {n k : ℕ} (A : Mat n k) : Mat n k := normalizeMat (centerMat A)

/-- The output of the external SVD routine `svd(M) -> (U, Σ, Vᵗ)`. -/
structure SVDOut (k : ℕ) where
  U : Mat k k
  sv : Fin k → ℝ
  Vt : Mat k k

/-- A square matrix is orthogonal: its transpose is a two-sided inverse. -/
def IsOrth {k : ℕ} (Q : Mat k k) : Prop := Q * Qᵀ = 1 ∧ Qᵀ * Q = 1

/-- `r` is a singular value decomposition of `M`: `U` and `V` orthogonal,
singular values non-negative and in descending order, and `M = U·Σ·Vᵗ`. -/
def IsSVDOf {k : ℕ} (r : SVDOut k) (M : Mat k k) : Prop :=
  IsOrth r.U ∧ IsOrth r.Vtᵀ ∧ (∀ i, 0 ≤ r.sv i) ∧
    (∀ i j : Fin k, i ≤ j → r.sv j ≤ r.sv i) ∧
    M = r.U * Matrix.diagonal r.sv * r.Vt

/-- Modelled from the spec: `scipy.linalg.orthogonal_procrustes` is imported
by the source from `scipy.linalg` and its code is not among the repository's
files.  Per the spec's solver contract, given same-shape `A`, `B` it computes
`M = Bᵗ·A`, decomposes `M = U·Σ·Vᵗ` by the external SVD routine, and returns
`R = U·Vᵗ` with `s = sum(Σ)`.  The SVD routine is the oracle `svd`. -/
def orthogonal_procrustes {m k : ℕ} (svd : Mat k k → SVDOut k)
    (A B : Mat m k) : Mat k k × ℝ :=
  let r := svd (Bᵀ * A)
  (r.U * r.Vt, ∑ i, r.sv i)

/-- The matrix-level body of `procrustes`, after the 2-D and shape checks
(which the types encode here; see `procrustes` for the full run-time checks):
the empty check, centering, the degeneracy check, normalization, the solver
call, the transform of `mtx2`, and the disparity. -/
def procrustesMat {n k : ℕ} (svd : Mat k k → SVDOut k) (data1 data2 : Mat n k) :
    Except PErr (Mat n k × Mat n k × ℝ) :=
  if n = 0 ∨ k = 0 then Except.error PErr.emptyInput
  else
    let mtx1 := centerMat data1
    let mtx2 := centerMat data2
    if mtx1 = 0 ∨ mtx2 = 0 then Except.error PErr.degenerateData
    else
      let m1 := normalizeMat mtx1
      let m2 := normalizeMat mtx2
      let Rs := orthogonal_procrustes svd m1 m2
      let m2T := Rs.2 • (m2 * (Rs.1)ᵀ)
      Except.ok (m1, m2T, ∑ i, ∑ j, (m1 i j - m2T i j) ^ 2)

/-- An `np.asarray(·, dtype=np.double)` result: a shape and the flat data. -/
structure NDArray where
  shape : List ℕ
  data : List ℝ

/-- The element grid of a 2-D `NDArray` read as an `n × k` matrix. -/
def NDArray.toMat (a : NDArray) (n k : ℕ) : Mat n k :=
  Matrix.of fun i j => a.data.getD (i.1 * k + j.1) 0

/-- A matrix written back as a freshly built 2-D `NDArray`. -/
def matToND {n k : ℕ} (A : Mat n k) : NDArray :=
  ⟨[n, k], ((List.finRange n).map fun i => (List.finRange k).map fun j => A i j).flatten⟩

/-- `procrustes(data1, data2)`: the full orchestrator, with the run-time
dimensionality and shape checks of the source, delegating to
`procrustesMat` for the remaining checks and the computation. -/
def procrustes (svd : (k' : ℕ) → Mat k' k' → SVDOut k') (data1 data2 : NDArray) :
    Except PErr (NDArray × NDArray × ℝ) :=
  if data1.shape.length ≠ 2 ∨ data2.shape.length ≠ 2 then
    Except.error PErr.dimensionality
  else if data1.shape ≠ data2.shape then Except.error PErr.shapeMismatch
  else
    match procrustesMat (svd (data1.shape.getD 1 0))
        (data1.toMat (data1.shape.getD 0 0) (data1.shape.getD 1 0))
        (data2.toMat (data1.shape.getD 0 0) (data1.shape.getD 1 0)) with
    | Except.error e => Except.error e
    | Except.ok (m1, m2, d) => Except.ok (matToND m1, matToND m2, d)

/-- The successful result, with a junk default on the error branch
(used only under an `isOkE` hypothesis). -/
def outOf {n k : ℕ} (r : Except PErr (Mat n k × Mat n k × ℝ)) :
    Mat n k × Mat n k × ℝ :=
  match r with
  | Except.ok t => t
  | Except.error _ => (0, 0, 0)

/-- Whether a run returned normally. -/
def isOkE {n k : ℕ} (r : Except PErr (Mat n k × Mat n k × ℝ)) : Bool :=
  match r with
  | Except.ok _ => true
  | Except.error _ => false

/-- The disparity of a successful run. -/
def dispOf {n k : ℕ} (r : Except PErr (Mat n k × Mat n k × ℝ)) : ℝ :=
  (outOf r).2.2

end

noncomputable section

/-- Frobenius inner product: the sum of entrywise products. -/
def fI {n k : ℕ} (X Y : Mat n k) : ℝ := ∑ i, ∑ j, X i j * Y i j

end

lemma fI_self_eq_ssq {n k : ℕ} (A : Mat n k) : fI A A = ssq A := by
  simp [fI, ssq, pow_two]

lemma sum_col_centerMat {n k : ℕ} (A : Mat n k) (hn : n ≠ 0) (j : Fin k) :
    ∑ i, centerMat A i j = 0 := by
  have hn' : (n : ℝ) ≠ 0 := Nat.cast_ne_zero.mpr hn
  simp only [centerMat, Matrix.of_apply, colMean, Finset.sum_sub_distrib,
    Finset.sum_const, Finset.card_univ, Fintype.card_fin, nsmul_eq_mul]
  field_simp

lemma ssq_nonneg {n k : ℕ} (A : Mat n k) : 0 ≤ ssq A :=
  Finset.sum_nonneg fun _ _ => Finset.sum_nonneg fun _ _ => sq_nonneg _

lemma ssq_pos_of_ne_zero {n k : ℕ} (A : Mat n k) (h : A ≠ 0) : 0 < ssq A := by
  obtain ⟨i, j, hij⟩ : ∃ i j, A i j ≠ 0 := by
    by_contra hc
    push_neg at hc
    exact h (by ext i j; simpa using hc i j)
  have h1 : 0 < ∑ jj, (A i jj) ^ 2 :=
    Finset.sum_pos' (fun _ _ => sq_nonneg _)
      ⟨j, Finset.mem_univ j, pow_two_pos_of_ne_zero hij⟩
  exact Finset.sum_pos'
    (fun _ _ => Finset.sum_nonneg fun _ _ => sq_nonneg _) ⟨i, Finset.mem_univ i, h1⟩

lemma frobNorm_pos {n k : ℕ} (A : Mat n k) (h : A ≠ 0) : 0 < frobNorm A :=
  Real.sqrt_pos.mpr (ssq_pos_of_ne_zero A h)

lemma frobNorm_sq {n k : ℕ} (A : Mat n k) : frobNorm A ^ 2 = ssq A :=
  Real.sq_sqrt (ssq_nonneg A)

lemma ssq_normalizeMat {n k : ℕ} (A : Mat n k) (h : A ≠ 0) :
    ssq (normalizeMat A) = 1 := by
  have hpos := frobNorm_pos A h
  have hsq := frobNorm_sq A
  simp only [ssq, normalizeMat, Matrix.of_apply, div_pow, ← Finset.sum_div]
  rw [hsq]
  exact div_self (ssq_pos_of_ne_zero A h).ne'

lemma frobNorm_normalizeMat {n k : ℕ} (A : Mat n k) (h : A ≠ 0) :
    frobNorm (normalizeMat A) = 1 := by
  rw [frobNorm, ssq_normalizeMat A h, Real.sqrt_one]

lemma colMean_standardize {n k : ℕ} (A : Mat n k) (hn : n ≠ 0) (j : Fin k) :
    colMean (standardize A) j = 0 := by
  simp only [standardize, normalizeMat, colMean, Matrix.of_apply, ← Finset.sum_div]
  rw [sum_col_centerMat A hn j, zero_div, zero_div]

lemma fI_comm {n k : ℕ} (X Y : Mat n k) : fI X Y = fI Y X := by
  simp only [fI]
  exact Finset.sum_congr rfl fun i _ => Finset.sum_congr rfl fun j _ => mul_comm _ _

lemma fI_smul_right {n k : ℕ} (c : ℝ) (X Y : Mat n k) :
    fI X (c • Y) = c * fI X Y := by
  simp only [fI, Matrix.smul_apply, smul_eq_mul, Finset.mul_sum]
  exact Finset.sum_congr rfl fun i _ => Finset.sum_congr rfl fun j _ => by ring

lemma fI_smul_left {n k : ℕ} (c : ℝ) (X Y : Mat n k) :
    fI (c • X) Y = c * fI X Y := by
  rw [fI_comm, fI_smul_right, fI_comm]

lemma fI_mul_transpose {n k : ℕ} (X Y : Mat n k) (Q : Mat k k) :
    fI X (Y * Qᵀ) = fI Y (X * Q) := by
  simp only [fI, Matrix.mul_apply, Matrix.transpose_apply, Finset.mul_sum]
  refine Finset.sum_congr rfl fun i _ => ?_
  rw [Finset.sum_comm]
  exact Finset.sum_congr rfl fun l _ => Finset.sum_congr rfl fun j _ => by ring

lemma sub_sq_expand {n k : ℕ} (X Y : Mat n k) :
    ∑ i, ∑ j, (X i j - Y i j) ^ 2 = fI X X - 2 * fI X Y + fI Y Y := by
  have hp : ∀ (i : Fin n) (j : Fin k),
      (X i j - Y i j) ^ 2 =
        X i j * X i j - 2 * (X i j * Y i j) + Y i j * Y i j := fun i j => by ring
  simp only [hp, Finset.sum_add_distrib, Finset.sum_sub_distrib, fI, ← Finset.mul_sum]

lemma IsOrth.transpose {k : ℕ} {Q : Mat k k} (h : IsOrth Q) : IsOrth Qᵀ := by
  obtain ⟨h1, h2⟩ := h
  exact ⟨by rw [Matrix.transpose_transpose]; exact h2,
    by rw [Matrix.transpose_transpose]; exact h1⟩

lemma IsOrth.mul {k : ℕ} {P Q : Mat k k} (hP : IsOrth P) (hQ : IsOrth Q) :
    IsOrth (P * Q) := by
  constructor
  · rw [Matrix.transpose_mul, Matrix.mul_assoc, ← Matrix.mul_assoc Q Qᵀ Pᵀ, hQ.1,
      Matrix.one_mul, hP.1]
  · rw [Matrix.transpose_mul, Matrix.mul_assoc, ← Matrix.mul_assoc Pᵀ P Q, hP.2,
      Matrix.one_mul, hQ.2]

/-- Norm preservation: multiplying on the right by the transpose of an
orthogonal matrix preserves the Frobenius inner product with itself. -/
lemma fI_mul_transpose_self {n k : ℕ} (Y : Mat n k) {Q : Mat k k} (hQ : IsOrth Q) :
    fI (Y * Qᵀ) (Y * Qᵀ) = fI Y Y := by
  rw [fI_mul_transpose, Matrix.mul_assoc, hQ.2, Matrix.mul_one]

/-- The orthogonal factor the modelled solver returns is orthogonal. -/
lemma solver_R_orth {m k : ℕ} (svd : Mat k k → SVDOut k) (A B : Mat m k)
    (h : IsSVDOf (svd (Bᵀ * A)) (Bᵀ * A)) :
    IsOrth (orthogonal_procrustes svd A B).1 := by
  obtain ⟨hU, hV, -, -, -⟩ := h
  have hVt : IsOrth (svd (Bᵀ * A)).Vt := by
    have := hV.transpose
    rwa [Matrix.transpose_transpose] at this
  exact hU.mul hVt

lemma procrustesMat_eq_ok {n k : ℕ} (svd : Mat k k → SVDOut k) (d1 d2 : Mat n k)
    (hn : n ≠ 0) (hk : k ≠ 0) (h1 : centerMat d1 ≠ 0) (h2 : centerMat d2 ≠ 0) :
    procrustesMat svd d1 d2 =
      Except.ok (standardize d1,
        (orthogonal_procrustes svd (standardize d1) (standardize d2)).2 •
          (standardize d2 *
            ((orthogonal_procrustes svd (standardize d1) (standardize d2)).1)ᵀ),
        ∑ i, ∑ j, (standardize d1 i j -
          ((orthogonal_procrustes svd (standardize d1) (standardize d2)).2 •
            (standardize d2 *
              ((orthogonal_procrustes svd (standardize d1) (standardize d2)).1)ᵀ)) i j) ^ 2) := by
  have hA : ¬(n = 0 ∨ k = 0) := by push_neg; exact ⟨hn, hk⟩
  have hB : ¬(centerMat d1 = 0 ∨ centerMat d2 = 0) := by push_neg; exact ⟨h1, h2⟩
  simp only [procrustesMat, standardize]
  rw [if_neg hA, if_neg hB]

lemma conds_of_isOk {n k : ℕ} {svd : Mat k k → SVDOut k} {d1 d2 : Mat n k}
    (h : isOkE (procrustesMat svd d1 d2) = true) :
    n ≠ 0 ∧ k ≠ 0 ∧ centerMat d1 ≠ 0 ∧ centerMat d2 ≠ 0 := by
  by_cases hA : n = 0 ∨ k = 0
  · simp only [procrustesMat, if_pos hA, isOkE] at h
    exact (Bool.false_ne_true h).elim
  · by_cases hB : centerMat d1 = 0 ∨ centerMat d2 = 0
    · simp only [procrustesMat, if_neg hA, if_pos hB, isOkE] at h
      exact (Bool.false_ne_true h).elim
    · push_neg at hA hB
      exact ⟨hA.1, hA.2, hB.1, hB.2⟩

noncomputable section

/-- A concrete SVD oracle at size 1, used by witnesses. -/
def svdOne : Mat 1 1 → SVDOut 1 := fun M => ⟨1, fun _ => M 0 0, 1⟩

/-- Concrete 2×1 input used by witnesses: the points 0 and 2 on a line. -/
def wData : Mat 2 1 := Matrix.of ![![0], ![2]]

end

lemma centerMat_wData : centerMat wData = Matrix.of ![![(-1 : ℝ)], ![1]] := by
  ext i j
  fin_cases i <;> fin_cases j <;>
    norm_num [centerMat, colMean, wData, Fin.sum_univ_two]

lemma centerMat_wData_ne : centerMat wData ≠ 0 := by
  rw [centerMat_wData]
  intro hc
  have h0 := congrFun (congrFun hc 0) 0
  norm_num at h0

lemma isOk_w : isOkE (procrustesMat svdOne wData wData) = true := by
  rw [procrustesMat_eq_ok svdOne wData wData (by norm_num) (by norm_num)
    centerMat_wData_ne centerMat_wData_ne]
  rfl

/-- **C1.** For every valid pair, the first returned matrix is the
standardized `data1`, unchanged, and the second is the standardized `data2`
multiplied on the right by `Rᵀ` and scaled by `s`, where `(R, s)` is the
orthogonal Procrustes solver's result on the standardized pair. -/
theorem procrustes_applies_solver_transform {n k : ℕ} (svd : Mat k k → SVDOut k)
    (d1 d2 : Mat n k) (h : isOkE (procrustesMat svd d1 d2) = true) :
    (outOf (procrustesMat svd d1 d2)).1 = standardize d1 ∧
      (outOf (procrustesMat svd d1 d2)).2.1 =
        (orthogonal_procrustes svd (standardize d1) (standardize d2)).2 •
          (standardize d2 *
            ((orthogonal_procrustes svd (standardize d1) (standardize d2)).1)ᵀ) := by
  obtain ⟨hn, hk, h1, h2⟩ := conds_of_isOk h
  rw [procrustesMat_eq_ok svd d1 d2 hn hk h1 h2]
  exact ⟨rfl, rfl⟩

theorem procrustes_applies_solver_transform_witness :
    (outOf (procrustesMat svdOne wData wData)).1 = standardize wData ∧
      (outOf (procrustesMat svdOne wData wData)).2.1 =
        (orthogonal_procrustes svdOne (standardize wData) (standardize wData)).2 •
          (standardize wData *
            ((orthogonal_procrustes svdOne (standardize wData) (standardize wData)).1)ᵀ) :=
  procrustes_applies_solver_transform svdOne wData wData isOk_w

/-- **C2.** For every valid pair, the returned disparity is the sum over all
entries of the squared differences of the two returned matrices, and is
non-negative. -/
theorem procrustes_disparity_sum_of_squares {n k : ℕ} (svd : Mat k k → SVDOut k)
    (d1 d2 : Mat n k) (h : isOkE (procrustesMat svd d1 d2) = true) :
    dispOf (procrustesMat svd d1 d2) =
      (∑ i, ∑ j, ((outOf (procrustesMat svd d1 d2)).1 i j -
        (outOf (procrustesMat svd d1 d2)).2.1 i j) ^ 2) ∧
      0 ≤ dispOf (procrustesMat svd d1 d2) := by
  obtain ⟨hn, hk, h1, h2⟩ := conds_of_isOk h
  rw [procrustesMat_eq_ok svd d1 d2 hn hk h1 h2]
  refine ⟨rfl, ?_⟩
  simp only [dispOf, outOf]
  exact Finset.sum_nonneg fun _ _ => Finset.sum_nonneg fun _ _ => sq_nonneg _

theorem procrustes_disparity_sum_of_squares_witness :
    dispOf (procrustesMat svdOne wData wData) =
      (∑ i, ∑ j, ((outOf (procrustesMat svdOne wData wData)).1 i j -
        (outOf (procrustesMat svdOne wData wData)).2.1 i j) ^ 2) ∧
      0 ≤ dispOf (procrustesMat svdOne wData wData) :=
  procrustes_disparity_sum_of_squares svdOne wData wData isOk_w

/-- **C3.** For every valid pair, the first returned matrix has column-wise
mean zero in every column and Frobenius norm one. -/
theorem procrustes_mtx1_standardized {n k : ℕ} (svd : Mat k k → SVDOut k)
    (d1 d2 : Mat n k) (h : isOkE (procrustesMat svd d1 d2) = true) :
    (∀ j, colMean (outOf (procrustesMat svd d1 d2)).1 j = 0) ∧
      frobNorm (outOf (procrustesMat svd d1 d2)).1 = 1 := by
  obtain ⟨hn, hk, h1, h2⟩ := conds_of_isOk h
  rw [procrustesMat_eq_ok svd d1 d2 hn hk h1 h2]
  exact ⟨fun j => colMean_standardize d1 hn j, frobNorm_normalizeMat _ h1⟩

theorem procrustes_mtx1_standardized_witness :
    (∀ j, colMean (outOf (procrustesMat svdOne wData wData)).1 j = 0) ∧
      frobNorm (outOf (procrustesMat svdOne wData wData)).1 = 1 :=
  procrustes_mtx1_standardized svdOne wData wData isOk_w

/-- **C10.** Whenever a run reaches the normalization step (returns
normally), both centered matrices have strictly positive Frobenius norm, so
neither division by a Frobenius norm divides by zero. -/
theorem procrustes_norms_positive {n k : ℕ} (svd : Mat k k → SVDOut k)
    (d1 d2 : Mat n k) (h : isOkE (procrustesMat svd d1 d2) = true) :
    0 < frobNorm (centerMat d1) ∧ 0 < frobNorm (centerMat d2) := by
  obtain ⟨-, -, h1, h2⟩ := conds_of_isOk h
  exact ⟨frobNorm_pos _ h1, frobNorm_pos _ h2⟩

theorem procrustes_norms_positive_witness :
    0 < frobNorm (centerMat wData) ∧ 0 < frobNorm (centerMat wData) :=
  procrustes_norms_positive svdOne wData wData isOk_w

lemma isSVD_one : IsSVDOf (svdOne ((1 : Mat 1 1)ᵀ * 1)) ((1 : Mat 1 1)ᵀ * 1) := by
  have hM : (1 : Mat 1 1)ᵀ * 1 = 1 := by rw [Matrix.transpose_one, Matrix.one_mul]
  rw [hM]
  refine ⟨⟨?_, ?_⟩, ⟨?_, ?_⟩, ?_, ?_, ?_⟩ <;>
    simp [svdOne, IsOrth, Matrix.one_apply]

/-- **C7.** The modelled solver returns `R = U·Vᵗ` and `s` equal to the sum
of the singular values, from the SVD of `M = Bᵗ·A`; when the oracle's output
is a genuine SVD of `M`, `R` is orthogonal and `s ≥ 0`. -/
theorem orthogonal_procrustes_spec {m k : ℕ} (svd : Mat k k → SVDOut k)
    (A B : Mat m k) (h : IsSVDOf (svd (Bᵀ * A)) (Bᵀ * A)) :
    (orthogonal_procrustes svd A B).1 =
        (svd (Bᵀ * A)).U * (svd (Bᵀ * A)).Vt ∧
      (orthogonal_procrustes svd A B).2 = (∑ i, (svd (Bᵀ * A)).sv i) ∧
      IsOrth (orthogonal_procrustes svd A B).1 ∧
      0 ≤ (orthogonal_procrustes svd A B).2 := by
  refine ⟨rfl, rfl, solver_R_orth svd A B h, ?_⟩
  show (0 : ℝ) ≤ ∑ i, (svd (Bᵀ * A)).sv i
  exact Finset.sum_nonneg fun i _ => h.2.2.1 i

theorem orthogonal_procrustes_spec_witness :
    (orthogonal_procrustes svdOne (1 : Mat 1 1) 1).1 =
        (svdOne ((1 : Mat 1 1)ᵀ * 1)).U * (svdOne ((1 : Mat 1 1)ᵀ * 1)).Vt ∧
      (orthogonal_procrustes svdOne (1 : Mat 1 1) 1).2 =
        (∑ i, (svdOne ((1 : Mat 1 1)ᵀ * 1)).sv i) ∧
      IsOrth (orthogonal_procrustes svdOne (1 : Mat 1 1) 1).1 ∧
      0 ≤ (orthogonal_procrustes svdOne (1 : Mat 1 1) 1).2 :=
  orthogonal_procrustes_spec svdOne 1 1 isSVD_one

lemma centerMat_one_row {k : ℕ} (A : Mat 1 k) : centerMat A = 0 := by
  ext i j
  fin_cases i
  simp [centerMat, colMean, Fin.sum_univ_one]

lemma procrustesMat_empty {n k : ℕ} (svd : Mat k k → SVDOut k) (d1 d2 : Mat n k)
    (h : n = 0 ∨ k = 0) :
    procrustesMat svd d1 d2 = Except.error PErr.emptyInput := by
  simp only [procrustesMat]
  rw [if_pos h]

lemma procrustesMat_degen {n k : ℕ} (svd : Mat k k → SVDOut k) (d1 d2 : Mat n k)
    (h : ¬(n = 0 ∨ k = 0)) (h2 : centerMat d1 = 0 ∨ centerMat d2 = 0) :
    procrustesMat svd d1 d2 = Except.error PErr.degenerateData := by
  simp only [procrustesMat]
  rw [if_neg h, if_pos h2]

lemma procrustesMat_one_row {n k : ℕ} (svd : Mat k k → SVDOut k) (d1 d2 : Mat n k)
    (hn : n = 1) (hk : k ≠ 0) :
    procrustesMat svd d1 d2 = Except.error PErr.degenerateData := by
  subst hn
  exact procrustesMat_degen svd d1 d2 (by push_neg; exact ⟨one_ne_zero, hk⟩)
    (Or.inl (centerMat_one_row d1))

/-- A trivial SVD oracle at every size (its value is irrelevant to the
validation path). -/
def svdTriv : (k' : ℕ) → Mat k' k' → SVDOut k' := fun _ _ => ⟨1, fun _ => 0, 1⟩

/-- **C9.** Inputs of shape `(1, k)` with `k ≥ 1` always raise the
degenerate-data error: centering the single row yields the exact zero
matrix, so no single-point input is accepted even though the shape checks
pass. -/
theorem procrustes_single_row_degenerate (svd : (k' : ℕ) → Mat k' k' → SVDOut k')
    (a b : NDArray) (k : ℕ) (hk : k ≠ 0) (ha : a.shape = [1, k])
    (hb : b.shape = [1, k]) :
    procrustes svd a b = Except.error PErr.degenerateData := by
  have h2a : a.shape.length = 2 := by rw [ha]; rfl
  have h2b : b.shape.length = 2 := by rw [hb]; rfl
  have hshape : a.shape = b.shape := by rw [ha, hb]
  have hN : a.shape.getD 0 0 = 1 := by rw [ha]; rfl
  have hK : a.shape.getD 1 0 ≠ 0 := by rw [ha]; exact hk
  simp only [procrustes]
  rw [if_neg (by push_neg; exact ⟨h2a, h2b⟩), if_neg (by simp [hshape]),
    procrustesMat_one_row _ _ _ hN hK]

theorem procrustes_single_row_degenerate_witness :
    procrustes svdTriv ⟨[1, 2], [5, 7]⟩ ⟨[1, 2], [5, 7]⟩ =
      Except.error PErr.degenerateData :=
  procrustes_single_row_degenerate svdTriv ⟨[1, 2], [5, 7]⟩ ⟨[1, 2], [5, 7]⟩ 2
    (by norm_num) rfl rfl

/-- **C4.** `procrustes` raises an error if and only if one of the four
validation conditions holds, each mapped to its own error kind, in the
source's order of precedence; otherwise it returns normally.  Errors are
raised before any transform or disparity is computed: an `Except.error`
carries no partial result. -/
theorem procrustes_error_taxonomy (svd : (k' : ℕ) → Mat k' k' → SVDOut k')
    (a b : NDArray) :
    (procrustes svd a b = Except.error PErr.dimensionality ↔
      (a.shape.length ≠ 2 ∨ b.shape.length ≠ 2)) ∧
    (procrustes svd a b = Except.error PErr.shapeMismatch ↔
      (a.shape.length = 2 ∧ b.shape.length = 2 ∧ a.shape ≠ b.shape)) ∧
    (procrustes svd a b = Except.error PErr.emptyInput ↔
      (a.shape.length = 2 ∧ a.shape = b.shape ∧
        (a.shape.getD 0 0 = 0 ∨ a.shape.getD 1 0 = 0))) ∧
    (procrustes svd a b = Except.error PErr.degenerateData ↔
      (a.shape.length = 2 ∧ a.shape = b.shape ∧
        ¬(a.shape.getD 0 0 = 0 ∨ a.shape.getD 1 0 = 0) ∧
        (centerMat (a.toMat (a.shape.getD 0 0) (a.shape.getD 1 0)) = 0 ∨
          centerMat (b.toMat (a.shape.getD 0 0) (a.shape.getD 1 0)) = 0))) ∧
    ((∃ t, procrustes svd a b = Except.ok t) ↔
      (a.shape.length = 2 ∧ b.shape.length = 2 ∧ a.shape = b.shape ∧
        a.shape.getD 0 0 ≠ 0 ∧ a.shape.getD 1 0 ≠ 0 ∧
        centerMat (a.toMat (a.shape.getD 0 0) (a.shape.getD 1 0)) ≠ 0 ∧
        centerMat (b.toMat (a.shape.getD 0 0) (a.shape.getD 1 0)) ≠ 0)) := by
  by_cases hd : a.shape.length ≠ 2 ∨ b.shape.length ≠ 2
  · have hr : procrustes svd a b = Except.error PErr.dimensionality := by
      simp only [procrustes]
      rw [if_pos hd]
    rw [hr]
    refine ⟨iff_of_true rfl hd, ?_, ?_, ?_, ?_⟩
    · constructor
      · intro h
        exact absurd (Except.error.inj h) (by simp)
      · rintro ⟨h2a, h2b, -⟩
        exact (hd.elim (fun h => h h2a) fun h => h h2b).elim
    · constructor
      · intro h
        exact absurd (Except.error.inj h) (by simp)
      · rintro ⟨h2a, hsh, -⟩
        exact (hd.elim (fun h => h h2a) fun h => h (hsh ▸ h2a)).elim
    · constructor
      · intro h
        exact absurd (Except.error.inj h) (by simp)
      · rintro ⟨h2a, hsh, -⟩
        exact (hd.elim (fun h => h h2a) fun h => h (hsh ▸ h2a)).elim
    · constructor
      · rintro ⟨t, ht⟩
        exact Except.noConfusion ht
      · rintro ⟨h2a, h2b, -⟩
        exact (hd.elim (fun h => h h2a) fun h => h h2b).elim
  · push_neg at hd
    obtain ⟨h2a, h2b⟩ := hd
    have hd' : ¬(a.shape.length ≠ 2 ∨ b.shape.length ≠ 2) := by
      push_neg
      exact ⟨h2a, h2b⟩
    by_cases hsh : a.shape = b.shape
    · by_cases hemp : a.shape.getD 0 0 = 0 ∨ a.shape.getD 1 0 = 0
      · have hr : procrustes svd a b = Except.error PErr.emptyInput := by
          simp only [procrustes]
          rw [if_neg hd', if_neg (not_not_intro hsh),
            procrustesMat_empty _ _ _ hemp]
        rw [hr]
        refine ⟨?_, ?_, iff_of_true rfl ⟨h2a, hsh, hemp⟩, ?_, ?_⟩
        · constructor
          · intro h
            exact absurd (Except.error.inj h) (by simp)
          · rintro (h | h)
            exacts [(h h2a).elim, (h h2b).elim]
        · constructor
          · intro h
            exact absurd (Except.error.inj h) (by simp)
          · rintro ⟨-, -, hne⟩
            exact (hne hsh).elim
        · constructor
          · intro h
            exact absurd (Except.error.inj h) (by simp)
          · rintro ⟨-, -, hne, -⟩
            exact (hne hemp).elim
        · constructor
          · rintro ⟨t, ht⟩
            exact Except.noConfusion ht
          · rintro ⟨-, -, -, hn0, hk0, -⟩
            exact (hemp.elim hn0 hk0).elim
      · by_cases hdeg :
            centerMat (a.toMat (a.shape.getD 0 0) (a.shape.getD 1 0)) = 0 ∨
              centerMat (b.toMat (a.shape.getD 0 0) (a.shape.getD 1 0)) = 0
        · have hr : procrustes svd a b = Except.error PErr.degenerateData := by
            simp only [procrustes]
            rw [if_neg hd', if_neg (not_not_intro hsh),
              procrustesMat_degen _ _ _ hemp hdeg]
          rw [hr]
          refine ⟨?_, ?_, ?_, iff_of_true rfl ⟨h2a, hsh, hemp, hdeg⟩, ?_⟩
          · constructor
            · intro h
              exact absurd (Except.error.inj h) (by simp)
            · rintro (h | h)
              exacts [(h h2a).elim, (h h2b).elim]
          · constructor
            · intro h
              exact absurd (Except.error.inj h) (by simp)
            · rintro ⟨-, -, hne⟩
              exact (hne hsh).elim
          · constructor
            · intro h
              exact absurd (Except.error.inj h) (by simp)
            · rintro ⟨-, -, h0⟩
              exact (hemp h0).elim
          · constructor
            · rintro ⟨t, ht⟩
              exact Except.noConfusion ht
            · rintro ⟨-, -, -, -, -, hc1, hc2⟩
              exact (hdeg.elim hc1 hc2).elim
        · push_neg at hemp hdeg
          have hr : procrustes svd a b =
              Except.ok
                (matToND (standardize (a.toMat (a.shape.getD 0 0) (a.shape.getD 1 0))),
                  matToND ((orthogonal_procrustes (svd (a.shape.getD 1 0))
                      (standardize (a.toMat (a.shape.getD 0 0) (a.shape.getD 1 0)))
                      (standardize (b.toMat (a.shape.getD 0 0) (a.shape.getD 1 0)))).2 •
                    (standardize (b.toMat (a.shape.getD 0 0) (a.shape.getD 1 0)) *
                      ((orthogonal_procrustes (svd (a.shape.getD 1 0))
                        (standardize (a.toMat (a.shape.getD 0 0) (a.shape.getD 1 0)))
                        (standardize (b.toMat (a.shape.getD 0 0) (a.shape.getD 1 0)))).1)ᵀ)),
                  dispOf (procrustesMat (svd (a.shape.getD 1 0))
                    (a.toMat (a.shape.getD 0 0) (a.shape.getD 1 0))
                    (b.toMat (a.shape.getD 0 0) (a.shape.getD 1 0)))) := by
            simp only [procrustes]
            rw [if_neg hd', if_neg (not_not_intro hsh),
              procrustesMat_eq_ok _ _ _ hemp.1 hemp.2 hdeg.1 hdeg.2]
            rfl
          rw [hr]
          refine ⟨?_, ?_, ?_, ?_, iff_of_true ⟨_, rfl⟩
            ⟨h2a, h2b, hsh, hemp.1, hemp.2, hdeg.1, hdeg.2⟩⟩
          · constructor
            · intro h
              exact Except.noConfusion h
            · rintro (h | h)
              exacts [(h h2a).elim, (h h2b).elim]
          · constructor
            · intro h
              exact Except.noConfusion h
            · rintro ⟨-, -, hne⟩
              exact (hne hsh).elim
          · constructor
            · intro h
              exact Except.noConfusion h
            · rintro ⟨-, -, h0⟩
              exact ((h0.elim hemp.1 hemp.2) : False).elim
          · constructor
            · intro h
              exact Except.noConfusion h
            · rintro ⟨-, -, -, hc⟩
              exact (hc.elim hdeg.1 hdeg.2).elim
    · have hr : procrustes svd a b = Except.error PErr.shapeMismatch := by
        simp only [procrustes]
        rw [if_neg hd', if_pos hsh]
      rw [hr]
      refine ⟨?_, iff_of_true rfl ⟨h2a, h2b, hsh⟩, ?_, ?_, ?_⟩
      · constructor
        · intro h
          exact absurd (Except.error.inj h) (by simp)
        · rintro (h | h)
          exacts [(h h2a).elim, (h h2b).elim]
      · constructor
        · intro h
          exact absurd (Except.error.inj h) (by simp)
        · rintro ⟨-, heq, -⟩
          exact (hsh heq).elim
      · constructor
        · intro h
          exact absurd (Except.error.inj h) (by simp)
        · rintro ⟨-, heq, -⟩
          exact (hsh heq).elim
      · constructor
        · rintro ⟨t, ht⟩
          exact Except.noConfusion ht
        · rintro ⟨-, -, heq, -⟩
          exact (hsh heq).elim

lemma fI_standardize_self {n k : ℕ} (A : Mat n k) (h : centerMat A ≠ 0) :
    fI (standardize A) (standardize A) = 1 := by
  rw [fI_self_eq_ssq, standardize]
  exact ssq_normalizeMat _ h

lemma disp_formula {n k : ℕ} (X Y : Mat n k) (Q : Mat k k) (c : ℝ)
    (hQ : IsOrth Q) (hX : fI X X = 1) (hY : fI Y Y = 1) :
    ∑ i, ∑ j, (X i j - (c • (Y * Qᵀ)) i j) ^ 2 =
      1 - 2 * (c * fI Y (X * Q)) + c ^ 2 := by
  have h1 := sub_sq_expand X (c • (Y * Qᵀ))
  have e1 : fI X (c • (Y * Qᵀ)) = c * fI Y (X * Q) := by
    rw [fI_smul_right, fI_mul_transpose]
  have e2 : fI (c • (Y * Qᵀ)) (c • (Y * Qᵀ)) = c ^ 2 := by
    rw [fI_smul_left, fI_smul_right, fI_mul_transpose_self Y hQ, hY]
    ring
  rw [h1, hX, e1, e2]

/-- The SVD oracle treats a matrix and its transpose coherently: the
factorization of `Mᵀ` is the transposed-and-swapped factorization of `M`
(as holds of any fixed factorization: `M = U·Σ·Vᵗ` iff `Mᵀ = V·Σ·Uᵗ`). -/
def TransposeCoherent {k : ℕ} (svd : Mat k k → SVDOut k) (M : Mat k k) : Prop :=
  (svd Mᵀ).U = ((svd M).Vt)ᵀ ∧ (svd Mᵀ).sv = (svd M).sv ∧
    (svd Mᵀ).Vt = ((svd M).U)ᵀ

/-- **C5 (amended).** For every pair of valid inputs, if the SVD oracle is
transpose-coherent at the cross matrix `M = mtx2ᵀ·mtx1` of the standardized
pair (and returns a genuine SVD there), the disparity is invariant under
swapping the two inputs. -/
theorem procrustes_disparity_swap_coherent {n k : ℕ} (svd : Mat k k → SVDOut k)
    (d1 d2 : Mat n k) (hn : n ≠ 0) (hk : k ≠ 0)
    (h1 : centerMat d1 ≠ 0) (h2 : centerMat d2 ≠ 0)
    (hsvd : IsSVDOf (svd ((standardize d2)ᵀ * standardize d1))
      ((standardize d2)ᵀ * standardize d1))
    (hcoh : TransposeCoherent svd ((standardize d2)ᵀ * standardize d1)) :
    dispOf (procrustesMat svd d1 d2) = dispOf (procrustesMat svd d2 d1) := by
  have hMt : (standardize d1)ᵀ * standardize d2 =
      ((standardize d2)ᵀ * standardize d1)ᵀ := by
    rw [Matrix.transpose_mul, Matrix.transpose_transpose]
  have hm1 : fI (standardize d1) (standardize d1) = 1 := fI_standardize_self d1 h1
  have hm2 : fI (standardize d2) (standardize d2) = 1 := fI_standardize_self d2 h2
  have hR : IsOrth (orthogonal_procrustes svd (standardize d1) (standardize d2)).1 :=
    solver_R_orth svd _ _ hsvd
  have hR'eq : (orthogonal_procrustes svd (standardize d2) (standardize d1)).1 =
      ((orthogonal_procrustes svd (standardize d1) (standardize d2)).1)ᵀ := by
    show (svd ((standardize d1)ᵀ * standardize d2)).U *
        (svd ((standardize d1)ᵀ * standardize d2)).Vt =
      ((svd ((standardize d2)ᵀ * standardize d1)).U *
        (svd ((standardize d2)ᵀ * standardize d1)).Vt)ᵀ
    rw [hMt, hcoh.1, hcoh.2.2, Matrix.transpose_mul]
  have hs'eq : (orthogonal_procrustes svd (standardize d2) (standardize d1)).2 =
      (orthogonal_procrustes svd (standardize d1) (standardize d2)).2 := by
    show (∑ i, (svd ((standardize d1)ᵀ * standardize d2)).sv i) =
      ∑ i, (svd ((standardize d2)ᵀ * standardize d1)).sv i
    rw [hMt, hcoh.2.1]
  have hR' : IsOrth (orthogonal_procrustes svd (standardize d2) (standardize d1)).1 := by
    rw [hR'eq]
    exact hR.transpose
  rw [procrustesMat_eq_ok svd d1 d2 hn hk h1 h2,
    procrustesMat_eq_ok svd d2 d1 hn hk h2 h1]
  simp only [dispOf, outOf]
  rw [disp_formula _ _ _ _ hR hm1 hm2]
  rw [disp_formula _ _ _ _ hR' hm2 hm1]
  rw [hR'eq]
  rw [hs'eq]
  rw [fI_mul_transpose]

noncomputable section

/-- A second concrete 2×1 input (a positive scaling of `wData`). -/
def wData2 : Mat 2 1 := Matrix.of ![![0], ![4]]

end

lemma centerMat_wData2 : centerMat wData2 = Matrix.of ![![(-2 : ℝ)], ![2]] := by
  ext i j
  fin_cases i <;> fin_cases j <;>
    norm_num [centerMat, colMean, wData2, Fin.sum_univ_two]

lemma centerMat_wData2_ne : centerMat wData2 ≠ 0 := by
  rw [centerMat_wData2]
  intro hc
  have h0 := congrFun (congrFun hc 0) 0
  norm_num at h0

lemma frobNorm_lit_w : frobNorm (Matrix.of ![![(-1 : ℝ)], ![1]]) = Real.sqrt 2 := by
  rw [frobNorm]
  norm_num [ssq, Fin.sum_univ_two, Fin.sum_univ_one]

lemma frobNorm_lit_w2 : frobNorm (Matrix.of ![![(-2 : ℝ)], ![2]]) = Real.sqrt 8 := by
  rw [frobNorm]
  norm_num [ssq, Fin.sum_univ_two, Fin.sum_univ_one]

lemma standardize_wData2 : standardize wData2 = standardize wData := by
  have h8 : Real.sqrt 8 = 2 * Real.sqrt 2 := by
    rw [show (8 : ℝ) = 2 ^ 2 * 2 by norm_num, Real.sqrt_mul (by positivity),
      Real.sqrt_sq (by norm_num)]
  have hne : Real.sqrt 2 ≠ 0 := by positivity
  ext i j
  fin_cases i <;> fin_cases j <;>
    simp [standardize, normalizeMat, centerMat_wData, centerMat_wData2,
      frobNorm_lit_w, frobNorm_lit_w2, h8] <;>
    (try field_simp)

lemma std_wData_inner : (standardize wData)ᵀ * standardize wData = 1 := by
  have hs2 : Real.sqrt 2 * Real.sqrt 2 = 2 := Real.mul_self_sqrt (by norm_num)
  have hne : Real.sqrt 2 ≠ 0 := by positivity
  ext i j
  fin_cases i
  fin_cases j
  rw [Matrix.mul_apply]
  simp [standardize, normalizeMat, centerMat_wData, frobNorm_lit_w,
    Fin.sum_univ_two, Matrix.one_apply]
  field_simp

lemma isSVD_one1 : IsSVDOf (svdOne 1) 1 := by
  refine ⟨⟨?_, ?_⟩, ⟨?_, ?_⟩, ?_, ?_, ?_⟩ <;>
    simp [svdOne, IsOrth, Matrix.one_apply]

lemma std_w2w_inner : (standardize wData2)ᵀ * standardize wData = 1 := by
  rw [standardize_wData2]
  exact std_wData_inner

lemma hsvdW : IsSVDOf (svdOne ((standardize wData2)ᵀ * standardize wData))
    ((standardize wData2)ᵀ * standardize wData) := by
  rw [std_w2w_inner]
  exact isSVD_one1

lemma hcohW : TransposeCoherent svdOne ((standardize wData2)ᵀ * standardize wData) := by
  rw [std_w2w_inner]
  refine ⟨?_, ?_, ?_⟩ <;> simp [svdOne, Matrix.transpose_one]

theorem procrustes_disparity_swap_coherent_witness :
    dispOf (procrustesMat svdOne wData wData2) =
      dispOf (procrustesMat svdOne wData2 wData) :=
  procrustes_disparity_swap_coherent svdOne wData wData2 (by norm_num) (by norm_num)
    centerMat_wData_ne centerMat_wData2_ne hsvdW hcohW

noncomputable section

/-- First input of the swap counterexample: three collinear points on the
x-axis. -/
def cexD1 : Mat 3 2 := Matrix.of ![![0, 0], ![1, 0], ![2, 0]]

/-- Second input of the swap counterexample: the same points rotated by
90 degrees onto the y-axis. -/
def cexD2 : Mat 3 2 := Matrix.of ![![0, 0], ![0, 1], ![0, 2]]

/-- The cross matrix `(standardize cexD2)ᵀ * standardize cexD1`. -/
def M0 : Mat 2 2 := Matrix.of ![![0, 0], ![1, 0]]

/-- An SVD oracle returning valid but transpose-incoherent factorizations
at `M0` and `M0ᵀ`: the rank-one cross matrix leaves the null-space singular
vectors free up to sign, and this oracle picks them incoherently. -/
def svdBad : Mat 2 2 → SVDOut 2 := fun M =>
  if M = M0 then ⟨Matrix.of ![![0, -1], ![1, 0]], ![1, 0], 1⟩
  else if M = M0ᵀ then ⟨1, ![1, 0], Matrix.of ![![0, 1], ![1, 0]]⟩
  else ⟨1, fun _ => 0, 1⟩

end

lemma centerMat_cexD1 :
    centerMat cexD1 = Matrix.of ![![(-1 : ℝ), 0], ![0, 0], ![1, 0]] := by
  ext i j
  fin_cases i <;> fin_cases j <;>
    norm_num [centerMat, colMean, cexD1, Fin.sum_univ_three]

lemma centerMat_cexD2 :
    centerMat cexD2 = Matrix.of ![![(0 : ℝ), -1], ![0, 0], ![0, 1]] := by
  ext i j
  fin_cases i <;> fin_cases j <;>
    norm_num [centerMat, colMean, cexD2, Fin.sum_univ_three]

lemma cexD1_ne : centerMat cexD1 ≠ 0 := by
  rw [centerMat_cexD1]
  intro h
  have h0 := congrFun (congrFun h 0) 0
  norm_num at h0

lemma cexD2_ne : centerMat cexD2 ≠ 0 := by
  rw [centerMat_cexD2]
  intro h
  have h0 := congrFun (congrFun h 0) 1
  norm_num at h0

lemma frobNorm_lit_c1 :
    frobNorm (Matrix.of ![![(-1 : ℝ), 0], ![0, 0], ![1, 0]]) = Real.sqrt 2 := by
  rw [frobNorm]
  norm_num [ssq, Fin.sum_univ_three, Fin.sum_univ_two]

lemma frobNorm_lit_c2 :
    frobNorm (Matrix.of ![![(0 : ℝ), -1], ![0, 0], ![0, 1]]) = Real.sqrt 2 := by
  rw [frobNorm]
  norm_num [ssq, Fin.sum_univ_three, Fin.sum_univ_two]

lemma M0_cross : (standardize cexD2)ᵀ * standardize cexD1 = M0 := by
  have hs2 : Real.sqrt 2 * Real.sqrt 2 = 2 := Real.mul_self_sqrt (by norm_num)
  have hne : Real.sqrt 2 ≠ 0 := by positivity
  ext i j
  fin_cases i <;> fin_cases j <;>
    simp [standardize, normalizeMat, centerMat_cexD1, centerMat_cexD2,
      frobNorm_lit_c1, frobNorm_lit_c2, Matrix.mul_apply, Matrix.transpose_apply,
      Fin.sum_univ_three, M0]
  all_goals try field_simp

lemma M0_cross' : (standardize cexD1)ᵀ * standardize cexD2 = M0ᵀ := by
  rw [show (standardize cexD1)ᵀ * standardize cexD2 =
    ((standardize cexD2)ᵀ * standardize cexD1)ᵀ by
      rw [Matrix.transpose_mul, Matrix.transpose_transpose], M0_cross]

lemma M0t_ne_M0 : M0ᵀ ≠ M0 := by
  intro h
  have h0 := congrFun (congrFun h 0) 1
  norm_num [M0, Matrix.transpose_apply] at h0

lemma svdBad_M0 : svdBad M0 = ⟨Matrix.of ![![0, -1], ![1, 0]], ![1, 0], 1⟩ := by
  simp [svdBad]

lemma svdBad_M0t : svdBad M0ᵀ = ⟨1, ![1, 0], Matrix.of ![![0, 1], ![1, 0]]⟩ := by
  simp [svdBad, M0t_ne_M0]

lemma isSVD_bad_M0 : IsSVDOf (svdBad M0) M0 := by
  rw [svdBad_M0]
  refine ⟨⟨?_, ?_⟩, ⟨?_, ?_⟩, ?_, ?_, ?_⟩
  · ext i j
    fin_cases i <;> fin_cases j <;>
      norm_num [Matrix.mul_apply, Matrix.transpose_apply, Fin.sum_univ_two,
        Matrix.one_apply, Matrix.vecHead, Matrix.vecTail]
  · ext i j
    fin_cases i <;> fin_cases j <;>
      norm_num [Matrix.mul_apply, Matrix.transpose_apply, Fin.sum_univ_two,
        Matrix.one_apply, Matrix.vecHead, Matrix.vecTail]
  · simp
  · simp
  · intro i
    fin_cases i <;> norm_num
  · intro i j hij
    fin_cases i <;> fin_cases j <;>
      first
      | exact absurd hij (by decide)
      | norm_num [Matrix.vecHead, Matrix.vecTail]
  · ext i j
    fin_cases i <;> fin_cases j <;>
      norm_num [Matrix.mul_apply, Matrix.diagonal, Fin.sum_univ_two,
        Matrix.one_apply, M0, Matrix.vecHead, Matrix.vecTail]

lemma isSVD_bad_M0t : IsSVDOf (svdBad M0ᵀ) M0ᵀ := by
  rw [svdBad_M0t]
  refine ⟨⟨?_, ?_⟩, ⟨?_, ?_⟩, ?_, ?_, ?_⟩
  · simp
  · simp
  · ext i j
    fin_cases i <;> fin_cases j <;>
      norm_num [Matrix.mul_apply, Matrix.transpose_apply, Fin.sum_univ_two,
        Matrix.one_apply, Matrix.vecHead, Matrix.vecTail]
  · ext i j
    fin_cases i <;> fin_cases j <;>
      norm_num [Matrix.mul_apply, Matrix.transpose_apply, Fin.sum_univ_two,
        Matrix.one_apply, Matrix.vecHead, Matrix.vecTail]
  · intro i
    fin_cases i <;> norm_num
  · intro i j hij
    fin_cases i <;> fin_cases j <;>
      first
      | exact absurd hij (by decide)
      | norm_num [Matrix.vecHead, Matrix.vecTail]
  · ext i j
    fin_cases i <;> fin_cases j <;>
      norm_num [Matrix.mul_apply, Matrix.diagonal, Fin.sum_univ_two,
        Matrix.one_apply, M0, Matrix.transpose_apply, Matrix.vecHead,
        Matrix.vecTail]

lemma cexRs1 : (orthogonal_procrustes svdBad (standardize cexD1)
    (standardize cexD2)).1 = Matrix.of ![![0, -1], ![1, 0]] := by
  show (svdBad ((standardize cexD2)ᵀ * standardize cexD1)).U *
      (svdBad ((standardize cexD2)ᵀ * standardize cexD1)).Vt = _
  rw [M0_cross, svdBad_M0]
  exact Matrix.mul_one _

lemma cexRs2 : (orthogonal_procrustes svdBad (standardize cexD1)
    (standardize cexD2)).2 = 1 := by
  show (∑ i, (svdBad ((standardize cexD2)ᵀ * standardize cexD1)).sv i) = 1
  rw [M0_cross, svdBad_M0]
  norm_num [Fin.sum_univ_two]

lemma cexRs1' : (orthogonal_procrustes svdBad (standardize cexD2)
    (standardize cexD1)).1 = Matrix.of ![![0, 1], ![1, 0]] := by
  show (svdBad ((standardize cexD1)ᵀ * standardize cexD2)).U *
      (svdBad ((standardize cexD1)ᵀ * standardize cexD2)).Vt = _
  rw [M0_cross', svdBad_M0t]
  exact Matrix.one_mul _

lemma cexRs2' : (orthogonal_procrustes svdBad (standardize cexD2)
    (standardize cexD1)).2 = 1 := by
  show (∑ i, (svdBad ((standardize cexD1)ᵀ * standardize cexD2)).sv i) = 1
  rw [M0_cross', svdBad_M0t]
  norm_num [Fin.sum_univ_two]

lemma cexKey1 : standardize cexD2 * (Matrix.of ![![(0 : ℝ), -1], ![1, 0]])ᵀ =
    -standardize cexD1 := by
  ext i j
  fin_cases i <;> fin_cases j <;>
    simp [standardize, normalizeMat, centerMat_cexD1, centerMat_cexD2,
      frobNorm_lit_c1, frobNorm_lit_c2, Matrix.mul_apply, Matrix.transpose_apply,
      Fin.sum_univ_two, Matrix.neg_apply, Matrix.vecHead, Matrix.vecTail]

lemma cexKey2 : standardize cexD1 * (Matrix.of ![![(0 : ℝ), 1], ![1, 0]])ᵀ =
    standardize cexD2 := by
  ext i j
  fin_cases i <;> fin_cases j <;>
    simp [standardize, normalizeMat, centerMat_cexD1, centerMat_cexD2,
      frobNorm_lit_c1, frobNorm_lit_c2, Matrix.mul_apply, Matrix.transpose_apply,
      Fin.sum_univ_two, Matrix.vecHead, Matrix.vecTail]

lemma cexDisp1 : dispOf (procrustesMat svdBad cexD1 cexD2) = 4 := by
  rw [procrustesMat_eq_ok svdBad cexD1 cexD2 (by norm_num) (by norm_num)
    cexD1_ne cexD2_ne]
  simp only [dispOf, outOf]
  have hT : (orthogonal_procrustes svdBad (standardize cexD1)
        (standardize cexD2)).2 •
      (standardize cexD2 * ((orthogonal_procrustes svdBad (standardize cexD1)
        (standardize cexD2)).1)ᵀ) = -standardize cexD1 := by
    rw [cexRs1, cexRs2, cexKey1, one_smul]
  rw [hT]
  have hpt : ∀ (i : Fin 3) (j : Fin 2),
      (standardize cexD1 i j - (-standardize cexD1) i j) ^ 2 =
        4 * (standardize cexD1 i j * standardize cexD1 i j) := by
    intro i j
    simp only [Matrix.neg_apply, sub_neg_eq_add]
    ring
  simp only [hpt, ← Finset.mul_sum]
  rw [show (∑ i, ∑ j, standardize cexD1 i j * standardize cexD1 i j) = 1 from
    fI_standardize_self cexD1 cexD1_ne]
  norm_num

lemma cexDisp2 : dispOf (procrustesMat svdBad cexD2 cexD1) = 0 := by
  rw [procrustesMat_eq_ok svdBad cexD2 cexD1 (by norm_num) (by norm_num)
    cexD2_ne cexD1_ne]
  simp only [dispOf, outOf]
  have hT : (orthogonal_procrustes svdBad (standardize cexD2)
        (standardize cexD1)).2 •
      (standardize cexD1 * ((orthogonal_procrustes svdBad (standardize cexD2)
        (standardize cexD1)).1)ᵀ) = standardize cexD2 := by
    rw [cexRs1', cexRs2', cexKey2, one_smul]
  rw [hT]
  simp

/-- **C5 (counterexample).** With the solver as the spec specifies it
(`M = Bᵗ·A`, `R = U·Vᵗ`), an SVD oracle that is valid at both cross
matrices but factors them incoherently makes the disparity depend on the
argument order: for the concrete pair `cexD1`, `cexD2` the two calls return
disparities `4` and `0`. -/
theorem procrustes_disparity_swap_counterexample :
    IsSVDOf (svdBad ((standardize cexD2)ᵀ * standardize cexD1))
        ((standardize cexD2)ᵀ * standardize cexD1) ∧
      IsSVDOf (svdBad ((standardize cexD1)ᵀ * standardize cexD2))
        ((standardize cexD1)ᵀ * standardize cexD2) ∧
      dispOf (procrustesMat svdBad cexD1 cexD2) = 4 ∧
      dispOf (procrustesMat svdBad cexD2 cexD1) = 0 ∧
      dispOf (procrustesMat svdBad cexD1 cexD2) ≠
        dispOf (procrustesMat svdBad cexD2 cexD1) := by
  refine ⟨?_, ?_, cexDisp1, cexDisp2, ?_⟩
  · rw [M0_cross]
    exact isSVD_bad_M0
  · rw [M0_cross']
    exact isSVD_bad_M0t
  · rw [cexDisp1, cexDisp2]
    norm_num

lemma centerMat_affine {n k : ℕ} (d : Mat n k) (c : ℝ) (t : Fin k → ℝ) :
    centerMat (Matrix.of fun i j => c * d i j + t j) = c • centerMat d := by
  ext i j
  have hn : (n : ℝ) ≠ 0 := Nat.cast_ne_zero.mpr (Fin.pos i).ne'
  simp only [centerMat, Matrix.of_apply, colMean, Matrix.smul_apply, smul_eq_mul,
    Finset.sum_add_distrib, ← Finset.mul_sum, Finset.sum_const, Finset.card_univ,
    Fintype.card_fin, nsmul_eq_mul]
  field_simp
  ring

lemma ssq_smul {n k : ℕ} (c : ℝ) (A : Mat n k) : ssq (c • A) = c ^ 2 * ssq A := by
  simp only [ssq, Matrix.smul_apply, smul_eq_mul, mul_pow, ← Finset.mul_sum]

lemma frobNorm_smul_pos {n k : ℕ} (c : ℝ) (hc : 0 < c) (A : Mat n k) :
    frobNorm (c • A) = c * frobNorm A := by
  rw [frobNorm, ssq_smul, Real.sqrt_mul (sq_nonneg c), Real.sqrt_sq hc.le, frobNorm]

lemma normalizeMat_smul_pos {n k : ℕ} (c : ℝ) (hc : 0 < c) (A : Mat n k) :
    normalizeMat (c • A) = normalizeMat A := by
  ext i j
  simp only [normalizeMat, Matrix.of_apply, Matrix.smul_apply, smul_eq_mul,
    frobNorm_smul_pos c hc]
  exact mul_div_mul_left _ _ hc.ne'

lemma procrustesMat_affine_invariant {n k : ℕ} (svd : Mat k k → SVDOut k)
    (d1 d2 : Mat n k) (c : ℝ) (t : Fin k → ℝ) (hc : 0 < c) :
    procrustesMat svd d1 (Matrix.of fun i j => c * d2 i j + t j) =
      procrustesMat svd d1 d2 := by
  by_cases hA : n = 0 ∨ k = 0
  · rw [procrustesMat_empty _ _ _ hA, procrustesMat_empty _ _ _ hA]
  · have hcen := centerMat_affine d2 c t
    by_cases hB : centerMat d1 = 0 ∨ centerMat d2 = 0
    · have hB' : centerMat d1 = 0 ∨
          centerMat (Matrix.of fun i j => c * d2 i j + t j) = 0 := by
        rcases hB with h | h
        · exact Or.inl h
        · exact Or.inr (by rw [hcen, h, smul_zero])
      rw [procrustesMat_degen _ _ _ hA hB', procrustesMat_degen _ _ _ hA hB]
    · push_neg at hB
      push_neg at hA
      have h2' : centerMat (Matrix.of fun i j => c * d2 i j + t j) ≠ 0 := by
        rw [hcen]
        exact smul_ne_zero hc.ne' hB.2
      have hstd : standardize (Matrix.of fun i j => c * d2 i j + t j) =
          standardize d2 := by
        rw [standardize, hcen, normalizeMat_smul_pos c hc, standardize]
      rw [procrustesMat_eq_ok svd d1 _ hA.1 hA.2 hB.1 h2',
        procrustesMat_eq_ok svd d1 d2 hA.1 hA.2 hB.1 hB.2, hstd]

noncomputable section

/-- The spec's concrete example input `a`. -/
def aMat : Mat 4 2 := Matrix.of ![![1, 3], ![1, 2], ![1, 1], ![2, 1]]

/-- The spec's concrete example input `b`: `a` mirrored in x (scale −2),
scaled by 2 in y, and translated. -/
def bMat : Mat 4 2 := Matrix.of ![![4, -2], ![4, -4], ![4, -6], ![2, -6]]

/-- The cross matrix `(standardize bMat)ᵀ * standardize aMat`. -/
def Mab : Mat 2 2 := Matrix.of ![![-3/14, 3/14], ![-3/14, 11/14]]

/-- The reflection `diag(−1, 1)`: the orthogonal factor the modelled solver
produces at `Mab`, for every valid SVD of `Mab`. -/
def Dmat : Mat 2 2 := Matrix.of ![![-1, 0], ![0, 1]]

end

lemma centerMat_aMat : centerMat aMat =
    Matrix.of ![![(-1 : ℝ)/4, 5/4], ![-1/4, 1/4], ![-1/4, -3/4], ![3/4, -3/4]] := by
  ext i j
  fin_cases i <;> fin_cases j <;>
    norm_num [centerMat, colMean, aMat, Fin.sum_univ_four]

lemma centerMat_bMat : centerMat bMat =
    Matrix.of ![![(1 : ℝ)/2, 5/2], ![1/2, 1/2], ![1/2, -3/2], ![-3/2, -3/2]] := by
  ext i j
  fin_cases i <;> fin_cases j <;>
    norm_num [centerMat, colMean, bMat, Fin.sum_univ_four]

lemma aMat_ne : centerMat aMat ≠ 0 := by
  rw [centerMat_aMat]
  intro h
  have h0 := congrFun (congrFun h 0) 0
  norm_num at h0

lemma bMat_ne : centerMat bMat ≠ 0 := by
  rw [centerMat_bMat]
  intro h
  have h0 := congrFun (congrFun h 0) 0
  norm_num at h0

lemma frobNorm_lit_a : frobNorm
    (Matrix.of ![![(-1 : ℝ)/4, 5/4], ![-1/4, 1/4], ![-1/4, -3/4], ![3/4, -3/4]]) =
    Real.sqrt (7/2) := by
  rw [frobNorm]
  congr 1
  norm_num [ssq, Fin.sum_univ_four, Fin.sum_univ_two, Matrix.vecHead,
    Matrix.vecTail]

lemma frobNorm_lit_b : frobNorm
    (Matrix.of ![![(1 : ℝ)/2, 5/2], ![1/2, 1/2], ![1/2, -3/2], ![-3/2, -3/2]]) =
    Real.sqrt 14 := by
  rw [frobNorm]
  congr 1
  norm_num [ssq, Fin.sum_univ_four, Fin.sum_univ_two, Matrix.vecHead,
    Matrix.vecTail]

lemma hs7 : Real.sqrt 14 * Real.sqrt (7/2) = 7 := by
  rw [← Real.sqrt_mul (by norm_num : (0:ℝ) ≤ 14),
    show (14 : ℝ) * (7/2) = 49 by norm_num, show (49 : ℝ) = 7 ^ 2 by norm_num,
    Real.sqrt_sq (by norm_num)]

lemma hs7b : Real.sqrt 14 * (Real.sqrt 7 / Real.sqrt 2) = 7 := by
  rw [← Real.sqrt_div (by norm_num : (0:ℝ) ≤ 7)]
  exact hs7

lemma Mab_cross : (standardize bMat)ᵀ * standardize aMat = Mab := by
  ext i j
  fin_cases i <;> fin_cases j <;>
  · simp only [standardize, normalizeMat, centerMat_aMat, centerMat_bMat,
      frobNorm_lit_a, frobNorm_lit_b, Matrix.mul_apply, Matrix.transpose_apply,
      Fin.sum_univ_four, Matrix.of_apply, Mab, Matrix.cons_val', Matrix.cons_val_zero,
      Matrix.cons_val_one, Matrix.head_cons, Matrix.head_fin_const, Matrix.vecHead,
      Matrix.vecTail, Matrix.cons_val_fin_one, Matrix.empty_val']
    norm_num [Matrix.vecHead, Matrix.vecTail]
    simp only [div_mul_div_comm, div_add_div_same]
    rw [hs7b]
    norm_num

lemma Mab_MtM : Mabᵀ * Mab = Matrix.of ![![(9 : ℝ)/98, -3/14], ![-3/14, 65/98]] := by
  ext i j
  fin_cases i <;> fin_cases j <;>
    norm_num [Mab, Matrix.mul_apply, Matrix.transpose_apply, Fin.sum_univ_two,
      Matrix.vecHead, Matrix.vecTail]

lemma Mab_solver (r : SVDOut 2) (hr : IsSVDOf r Mab) :
    r.U * r.Vt = Dmat ∧ (∑ i, r.sv i) = 1 := by
  obtain ⟨⟨hU1, hU2⟩, ⟨hV1, hV2⟩, hnn, hdesc, hM⟩ := hr
  rw [Matrix.transpose_transpose] at hV1 hV2
  have hMtM : Matrix.of ![![(9 : ℝ)/98, -3/14], ![-3/14, 65/98]] =
      r.Vtᵀ * Matrix.diagonal (fun l => r.sv l ^ 2) * r.Vt := by
    rw [← Mab_MtM, hM]
    rw [Matrix.transpose_mul, Matrix.transpose_mul, Matrix.diagonal_transpose]
    simp only [Matrix.mul_assoc]
    rw [← Matrix.mul_assoc r.Uᵀ r.U, hU2, Matrix.one_mul,
      ← Matrix.mul_assoc (Matrix.diagonal r.sv) (Matrix.diagonal r.sv),
      Matrix.diagonal_mul_diagonal,
      show (fun l => r.sv l * r.sv l) = fun l => r.sv l ^ 2 from
        funext fun l => (pow_two (r.sv l)).symm]
  have entRHS : ∀ i j : Fin 2,
      (r.Vtᵀ * Matrix.diagonal (fun l => r.sv l ^ 2) * r.Vt) i j =
        r.Vt 0 i * r.Vt 0 j * r.sv 0 ^ 2 + r.Vt 1 i * r.Vt 1 j * r.sv 1 ^ 2 := by
    intro i j
    simp [Matrix.mul_apply, Matrix.diagonal, Fin.sum_univ_two,
      Matrix.transpose_apply]
    ring
  have e00 : r.Vt 0 0 * r.Vt 0 0 * r.sv 0 ^ 2 +
      r.Vt 1 0 * r.Vt 1 0 * r.sv 1 ^ 2 = 9/98 := by
    have h := congrFun (congrFun hMtM 0) 0
    rw [entRHS 0 0] at h
    norm_num [Matrix.vecHead, Matrix.vecTail] at h
    linarith [h]
  have e01 : r.Vt 0 0 * r.Vt 0 1 * r.sv 0 ^ 2 +
      r.Vt 1 0 * r.Vt 1 1 * r.sv 1 ^ 2 = -3/14 := by
    have h := congrFun (congrFun hMtM 0) 1
    rw [entRHS 0 1] at h
    norm_num [Matrix.vecHead, Matrix.vecTail] at h
    linarith [h]
  have e11 : r.Vt 0 1 * r.Vt 0 1 * r.sv 0 ^ 2 +
      r.Vt 1 1 * r.Vt 1 1 * r.sv 1 ^ 2 = 65/98 := by
    have h := congrFun (congrFun hMtM 1) 1
    rw [entRHS 1 1] at h
    norm_num [Matrix.vecHead, Matrix.vecTail] at h
    linarith [h]
  have A1 : r.Vt 0 0 * r.Vt 0 0 + r.Vt 0 1 * r.Vt 0 1 = 1 := by
    have h := congrFun (congrFun hV2 0) 0
    simp [Matrix.mul_apply, Fin.sum_univ_two, Matrix.transpose_apply,
      Matrix.one_apply] at h
    linarith [h]
  have A2 : r.Vt 0 0 * r.Vt 1 0 + r.Vt 0 1 * r.Vt 1 1 = 0 := by
    have h := congrFun (congrFun hV2 0) 1
    simp [Matrix.mul_apply, Fin.sum_univ_two, Matrix.transpose_apply,
      Matrix.one_apply] at h
    linarith [h]
  have A3 : r.Vt 1 0 * r.Vt 1 0 + r.Vt 1 1 * r.Vt 1 1 = 1 := by
    have h := congrFun (congrFun hV2 1) 1
    simp [Matrix.mul_apply, Fin.sum_univ_two, Matrix.transpose_apply,
      Matrix.one_apply] at h
    linarith [h]
  have B1 : r.Vt 0 0 * r.Vt 0 0 + r.Vt 1 0 * r.Vt 1 0 = 1 := by
    have h := congrFun (congrFun hV1 0) 0
    simp [Matrix.mul_apply, Fin.sum_univ_two, Matrix.transpose_apply,
      Matrix.one_apply] at h
    linarith [h]
  have B2 : r.Vt 0 0 * r.Vt 0 1 + r.Vt 1 0 * r.Vt 1 1 = 0 := by
    have h := congrFun (congrFun hV1 0) 1
    simp [Matrix.mul_apply, Fin.sum_univ_two, Matrix.transpose_apply,
      Matrix.one_apply] at h
    linarith [h]
  have B3 : r.Vt 0 1 * r.Vt 0 1 + r.Vt 1 1 * r.Vt 1 1 = 1 := by
    have h := congrFun (congrFun hV1 1) 1
    simp [Matrix.mul_apply, Fin.sum_univ_two, Matrix.transpose_apply,
      Matrix.one_apply] at h
    linarith [h]
  have T1 : r.sv 0 ^ 2 + r.sv 1 ^ 2 = 37/49 := by
    linear_combination e00 + e11 - r.sv 0 ^ 2 * A1 - r.sv 1 ^ 2 * A3
  have hdet2 : (r.Vt 0 0 * r.Vt 1 1 - r.Vt 0 1 * r.Vt 1 0) ^ 2 = 1 := by
    linear_combination (r.Vt 1 0 * r.Vt 1 0 + r.Vt 1 1 * r.Vt 1 1) * A1 + A3 -
      (r.Vt 0 0 * r.Vt 1 0 + r.Vt 0 1 * r.Vt 1 1) * A2
  have T2 : r.sv 0 ^ 2 * r.sv 1 ^ 2 = 36/2401 := by
    linear_combination
      (r.Vt 0 1 * r.Vt 0 1 * r.sv 0 ^ 2 + r.Vt 1 1 * r.Vt 1 1 * r.sv 1 ^ 2) * e00 +
      (9/98) * e11 +
      (3/14 - (r.Vt 0 0 * r.Vt 0 1 * r.sv 0 ^ 2 + r.Vt 1 0 * r.Vt 1 1 * r.sv 1 ^ 2)) * e01 -
      r.sv 0 ^ 2 * r.sv 1 ^ 2 * hdet2
  have hprod : r.sv 0 * r.sv 1 = 6/49 := by
    have h0 : (r.sv 0 * r.sv 1 - 6/49) * (r.sv 0 * r.sv 1 + 6/49) = 0 := by
      linear_combination T2
    have hge : 0 ≤ r.sv 0 * r.sv 1 := mul_nonneg (hnn 0) (hnn 1)
    rcases mul_eq_zero.mp h0 with h | h
    · linarith
    · linarith
  have hsum : r.sv 0 + r.sv 1 = 1 := by
    have h0 : (r.sv 0 + r.sv 1 - 1) * (r.sv 0 + r.sv 1 + 1) = 0 := by
      linear_combination T1 + 2 * hprod
    have h1 := hnn 0
    have h2 := hnn 1
    rcases mul_eq_zero.mp h0 with h | h
    · linarith
    · linarith
  have hdif : r.sv 0 - r.sv 1 = 5/7 := by
    have h0 : (r.sv 0 - r.sv 1 - 5/7) * (r.sv 0 - r.sv 1 + 5/7) = 0 := by
      linear_combination T1 - 2 * hprod
    have hle : r.sv 1 ≤ r.sv 0 := hdesc 0 1 (by decide)
    rcases mul_eq_zero.mp h0 with h | h
    · linarith
    · linarith
  have hsv0 : r.sv 0 = 6/7 := by linarith
  have hsv1 : r.sv 1 = 1/7 := by linarith
  rw [hsv0, hsv1] at e00 e01 e11
  norm_num at e00 e01 e11
  have pp : r.Vt 0 0 * r.Vt 0 0 = 1/10 := by linarith [e00, B1]
  have uu : r.Vt 1 0 * r.Vt 1 0 = 9/10 := by linarith [e00, B1]
  have qq : r.Vt 0 1 * r.Vt 0 1 = 9/10 := by linarith [e11, B3]
  have ww : r.Vt 1 1 * r.Vt 1 1 = 1/10 := by linarith [e11, B3]
  have pq : r.Vt 0 0 * r.Vt 0 1 = -3/10 := by linarith [e01, B2]
  have uw : r.Vt 1 0 * r.Vt 1 1 = 3/10 := by linarith [e01, B2]
  have hDinv : Matrix.diagonal r.sv * Matrix.diagonal ![(7:ℝ)/6, 7] = 1 := by
    rw [Matrix.diagonal_mul_diagonal,
      show (fun l => r.sv l * ![(7:ℝ)/6, 7] l) = fun _ => 1 from funext fun l => by
        fin_cases l <;>
          norm_num [hsv0, hsv1, Matrix.vecHead, Matrix.vecTail]]
    exact Matrix.diagonal_one
  have hU : r.U = Mab * r.Vtᵀ * Matrix.diagonal ![(7:ℝ)/6, 7] := by
    rw [hM, Matrix.mul_assoc (r.U * Matrix.diagonal r.sv) r.Vt r.Vtᵀ, hV2,
      Matrix.mul_one, Matrix.mul_assoc, hDinv, Matrix.mul_one]
  have entK : ∀ i j : Fin 2,
      (r.Vtᵀ * Matrix.diagonal ![(7:ℝ)/6, 7] * r.Vt) i j =
        r.Vt 0 i * r.Vt 0 j * (7/6) + r.Vt 1 i * r.Vt 1 j * 7 := by
    intro i j
    simp [Matrix.mul_apply, Matrix.diagonal, Fin.sum_univ_two,
      Matrix.transpose_apply, Matrix.vecHead, Matrix.vecTail]
    ring
  have hK : r.Vtᵀ * Matrix.diagonal ![(7:ℝ)/6, 7] * r.Vt =
      Matrix.of ![![(77:ℝ)/12, 7/4], ![7/4, 7/4]] := by
    ext i j
    rw [entK i j]
    fin_cases i <;> fin_cases j <;>
    · norm_num [Matrix.vecHead, Matrix.vecTail]
      linarith [pp, uu, qq, ww, pq, uw]
  constructor
  · have hRw : r.U * r.Vt =
        Mab * (r.Vtᵀ * Matrix.diagonal ![(7:ℝ)/6, 7] * r.Vt) := by
      rw [hU]
      simp only [Matrix.mul_assoc]
    rw [hRw, hK]
    ext i j
    fin_cases i <;> fin_cases j <;>
      norm_num [Mab, Dmat, Matrix.mul_apply, Fin.sum_univ_two, Matrix.vecHead,
        Matrix.vecTail]
  · rw [Fin.sum_univ_two, hsv0, hsv1]
    norm_num

lemma sqrt14_eq : Real.sqrt 14 = 2 * Real.sqrt (7/2) := by
  rw [show (14 : ℝ) = 2 ^ 2 * (7/2) by norm_num, Real.sqrt_mul (by positivity),
    Real.sqrt_sq (by norm_num)]

lemma bMat_transform : standardize bMat * Dmatᵀ = standardize aMat := by
  have hne : Real.sqrt (7/2) ≠ 0 := by positivity
  ext i j
  fin_cases i <;> fin_cases j <;>
  · simp only [standardize, normalizeMat, centerMat_aMat, centerMat_bMat,
      frobNorm_lit_a, frobNorm_lit_b, Matrix.mul_apply, Matrix.transpose_apply,
      Fin.sum_univ_two, Matrix.of_apply, Dmat, Matrix.cons_val', Matrix.cons_val_zero,
      Matrix.cons_val_one, Matrix.head_cons, Matrix.head_fin_const, Matrix.vecHead,
      Matrix.vecTail, Matrix.cons_val_fin_one, Matrix.empty_val', sqrt14_eq]
    field_simp
    ring

lemma dispAB (svd2 : Mat 2 2 → SVDOut 2) (hsvd2 : IsSVDOf (svd2 Mab) Mab) :
    dispOf (procrustesMat svd2 aMat bMat) = 0 := by
  obtain ⟨hR, hs⟩ := Mab_solver (svd2 Mab) hsvd2
  have hRs1 : (orthogonal_procrustes svd2 (standardize aMat)
      (standardize bMat)).1 = Dmat := by
    show (svd2 ((standardize bMat)ᵀ * standardize aMat)).U *
        (svd2 ((standardize bMat)ᵀ * standardize aMat)).Vt = Dmat
    rw [Mab_cross]
    exact hR
  have hRs2 : (orthogonal_procrustes svd2 (standardize aMat)
      (standardize bMat)).2 = 1 := by
    show (∑ i, (svd2 ((standardize bMat)ᵀ * standardize aMat)).sv i) = 1
    rw [Mab_cross]
    exact hs
  rw [procrustesMat_eq_ok svd2 aMat bMat (by norm_num) (by norm_num)
    aMat_ne bMat_ne]
  simp only [dispOf, outOf]
  have hT : (orthogonal_procrustes svd2 (standardize aMat)
        (standardize bMat)).2 •
      (standardize bMat * ((orthogonal_procrustes svd2 (standardize aMat)
        (standardize bMat)).1)ᵀ) = standardize aMat := by
    rw [hRs1, hRs2, bMat_transform, one_smul]
  rw [hT]
  simp

/-- **C6 (amended).** Translation and uniform positive scaling applied to
`data2` alone leave the entire result, in particular the disparity,
unchanged; and the spec's concrete pair `a`, `b` yields disparity exactly
`0` (which rounds to 0) for every SVD oracle that returns a genuine SVD at
the cross matrix.  Rotation/reflection invariance does not hold of the
solver as the spec states it (`M = Bᵗ·A`, `R = U·Vᵗ`); see the
counterexample. -/
theorem procrustes_rigid_invariance_amended :
    (∀ (n k : ℕ) (svd : Mat k k → SVDOut k) (d1 d2 : Mat n k) (c : ℝ)
        (t : Fin k → ℝ), 0 < c →
      procrustesMat svd d1 (Matrix.of fun i j => c * d2 i j + t j) =
        procrustesMat svd d1 d2) ∧
    (∀ svd2 : Mat 2 2 → SVDOut 2, IsSVDOf (svd2 Mab) Mab →
      dispOf (procrustesMat svd2 aMat bMat) = 0) :=
  ⟨fun _ _ svd d1 d2 c t hc => procrustesMat_affine_invariant svd d1 d2 c t hc,
    fun svd2 hsvd2 => dispAB svd2 hsvd2⟩

noncomputable section

/-- Input of the rigid-invariance counterexample: four centered points. -/
def rotD1 : Mat 4 2 := Matrix.of ![![1, 0], ![-1, 0], ![0, 2], ![0, -2]]

/-- `rotD1` rotated by 90 degrees (a rigid transform of `rotD1`). -/
def rotD2 : Mat 4 2 := Matrix.of ![![0, 1], ![0, -1], ![-2, 0], ![2, 0]]

/-- The rotation by 90 degrees: `rotD2 = rotD1 * Qrotᵀ`. -/
def Qrot : Mat 2 2 := Matrix.of ![![0, -1], ![1, 0]]

/-- The cross matrix of the call `(rotD1, rotD1)`. -/
def Gc : Mat 2 2 := Matrix.of ![![1/5, 0], ![0, 4/5]]

/-- The cross matrix of the call `(rotD1, rotD2)`. -/
def QGc : Mat 2 2 := Matrix.of ![![0, -4/5], ![1/5, 0]]

/-- The column swap, an orthogonal involution. -/
def Vsw2 : Mat 2 2 := Matrix.of ![![0, 1], ![1, 0]]

/-- An SVD oracle giving genuine SVDs at both cross matrices of the
counterexample (all factor entries rational). -/
def svdC6 : Mat 2 2 → SVDOut 2 := fun M =>
  if M = Gc then ⟨Vsw2, ![4/5, 1/5], Vsw2⟩
  else if M = QGc then ⟨Dmat, ![4/5, 1/5], Vsw2⟩
  else ⟨1, fun _ => 0, 1⟩

end

lemma centerMat_rotD1 : centerMat rotD1 =
    Matrix.of ![![(1 : ℝ), 0], ![-1, 0], ![0, 2], ![0, -2]] := by
  ext i j
  fin_cases i <;> fin_cases j <;>
    norm_num [centerMat, colMean, rotD1, Fin.sum_univ_four, Matrix.vecHead,
      Matrix.vecTail]

lemma centerMat_rotD2 : centerMat rotD2 =
    Matrix.of ![![(0 : ℝ), 1], ![0, -1], ![-2, 0], ![2, 0]] := by
  ext i j
  fin_cases i <;> fin_cases j <;>
    norm_num [centerMat, colMean, rotD2, Fin.sum_univ_four, Matrix.vecHead,
      Matrix.vecTail]

lemma rotD1_ne : centerMat rotD1 ≠ 0 := by
  rw [centerMat_rotD1]
  intro h
  have h0 := congrFun (congrFun h 0) 0
  norm_num at h0

lemma rotD2_ne : centerMat rotD2 ≠ 0 := by
  rw [centerMat_rotD2]
  intro h
  have h0 := congrFun (congrFun h 0) 1
  norm_num at h0

lemma frobNorm_lit_r1 :
    frobNorm (Matrix.of ![![(1 : ℝ), 0], ![-1, 0], ![0, 2], ![0, -2]]) =
      Real.sqrt 10 := by
  rw [frobNorm]
  congr 1
  norm_num [ssq, Fin.sum_univ_four, Fin.sum_univ_two, Matrix.vecHead,
    Matrix.vecTail]

lemma frobNorm_lit_r2 :
    frobNorm (Matrix.of ![![(0 : ℝ), 1], ![0, -1], ![-2, 0], ![2, 0]]) =
      Real.sqrt 10 := by
  rw [frobNorm]
  congr 1
  norm_num [ssq, Fin.sum_univ_four, Fin.sum_univ_two, Matrix.vecHead,
    Matrix.vecTail]

lemma hs10 : Real.sqrt 10 * Real.sqrt 10 = 10 := Real.mul_self_sqrt (by norm_num)

lemma Gc_cross : (standardize rotD1)ᵀ * standardize rotD1 = Gc := by
  ext i j
  fin_cases i <;> fin_cases j <;>
  · simp only [standardize, normalizeMat, centerMat_rotD1, frobNorm_lit_r1,
      Matrix.mul_apply, Matrix.transpose_apply, Fin.sum_univ_four,
      Matrix.of_apply, Gc, Matrix.cons_val', Matrix.cons_val_zero,
      Matrix.cons_val_one, Matrix.head_cons, Matrix.head_fin_const,
      Matrix.vecHead, Matrix.vecTail, Matrix.cons_val_fin_one, Matrix.empty_val']
    norm_num [Matrix.vecHead, Matrix.vecTail]
    try simp only [← one_div, div_mul_div_comm, div_add_div_same]
    try rw [hs10]
    try norm_num

lemma QGc_cross : (standardize rotD2)ᵀ * standardize rotD1 = QGc := by
  ext i j
  fin_cases i <;> fin_cases j <;>
  · simp only [standardize, normalizeMat, centerMat_rotD1, centerMat_rotD2,
      frobNorm_lit_r1, frobNorm_lit_r2, Matrix.mul_apply, Matrix.transpose_apply,
      Fin.sum_univ_four, Matrix.of_apply, QGc, Matrix.cons_val',
      Matrix.cons_val_zero, Matrix.cons_val_one, Matrix.head_cons,
      Matrix.head_fin_const, Matrix.vecHead, Matrix.vecTail,
      Matrix.cons_val_fin_one, Matrix.empty_val']
    norm_num [Matrix.vecHead, Matrix.vecTail]
    try simp only [← one_div, div_mul_div_comm, div_add_div_same]
    try rw [hs10]
    try norm_num

lemma QGc_ne_Gc : QGc ≠ Gc := by
  intro h
  have h0 := congrFun (congrFun h 0) 0
  norm_num [QGc, Gc] at h0

lemma svdC6_Gc : svdC6 Gc = ⟨Vsw2, ![4/5, 1/5], Vsw2⟩ := by
  simp [svdC6]

lemma svdC6_QGc : svdC6 QGc = ⟨Dmat, ![4/5, 1/5], Vsw2⟩ := by
  simp [svdC6, QGc_ne_Gc]

lemma Vsw2_mul_self : Vsw2 * Vsw2 = 1 := by
  ext i j
  fin_cases i <;> fin_cases j <;>
    norm_num [Vsw2, Matrix.mul_apply, Fin.sum_univ_two, Matrix.one_apply,
      Matrix.vecHead, Matrix.vecTail]

lemma isSVD_C6_Gc : IsSVDOf (svdC6 Gc) Gc := by
  rw [svdC6_Gc]
  refine ⟨⟨?_, ?_⟩, ⟨?_, ?_⟩, ?_, ?_, ?_⟩
  · ext i j
    fin_cases i <;> fin_cases j <;>
      norm_num [Vsw2, Matrix.mul_apply, Matrix.transpose_apply, Fin.sum_univ_two,
        Matrix.one_apply, Matrix.vecHead, Matrix.vecTail]
  · ext i j
    fin_cases i <;> fin_cases j <;>
      norm_num [Vsw2, Matrix.mul_apply, Matrix.transpose_apply, Fin.sum_univ_two,
        Matrix.one_apply, Matrix.vecHead, Matrix.vecTail]
  · ext i j
    fin_cases i <;> fin_cases j <;>
      norm_num [Vsw2, Matrix.mul_apply, Matrix.transpose_apply, Fin.sum_univ_two,
        Matrix.one_apply, Matrix.vecHead, Matrix.vecTail]
  · ext i j
    fin_cases i <;> fin_cases j <;>
      norm_num [Vsw2, Matrix.mul_apply, Matrix.transpose_apply, Fin.sum_univ_two,
        Matrix.one_apply, Matrix.vecHead, Matrix.vecTail]
  · intro i
    fin_cases i <;> norm_num [Matrix.vecHead, Matrix.vecTail]
  · intro i j hij
    fin_cases i <;> fin_cases j <;>
      first
      | exact absurd hij (by decide)
      | norm_num [Matrix.vecHead, Matrix.vecTail]
  · ext i j
    fin_cases i <;> fin_cases j <;>
      norm_num [Vsw2, Gc, Matrix.mul_apply, Matrix.diagonal, Fin.sum_univ_two,
        Matrix.vecHead, Matrix.vecTail]

lemma isSVD_C6_QGc : IsSVDOf (svdC6 QGc) QGc := by
  rw [svdC6_QGc]
  refine ⟨⟨?_, ?_⟩, ⟨?_, ?_⟩, ?_, ?_, ?_⟩
  · ext i j
    fin_cases i <;> fin_cases j <;>
      norm_num [Dmat, Matrix.mul_apply, Matrix.transpose_apply, Fin.sum_univ_two,
        Matrix.one_apply, Matrix.vecHead, Matrix.vecTail]
  · ext i j
    fin_cases i <;> fin_cases j <;>
      norm_num [Dmat, Matrix.mul_apply, Matrix.transpose_apply, Fin.sum_univ_two,
        Matrix.one_apply, Matrix.vecHead, Matrix.vecTail]
  · ext i j
    fin_cases i <;> fin_cases j <;>
      norm_num [Vsw2, Matrix.mul_apply, Matrix.transpose_apply, Fin.sum_univ_two,
        Matrix.one_apply, Matrix.vecHead, Matrix.vecTail]
  · ext i j
    fin_cases i <;> fin_cases j <;>
      norm_num [Vsw2, Matrix.mul_apply, Matrix.transpose_apply, Fin.sum_univ_two,
        Matrix.one_apply, Matrix.vecHead, Matrix.vecTail]
  · intro i
    fin_cases i <;> norm_num [Matrix.vecHead, Matrix.vecTail]
  · intro i j hij
    fin_cases i <;> fin_cases j <;>
      first
      | exact absurd hij (by decide)
      | norm_num [Matrix.vecHead, Matrix.vecTail]
  · ext i j
    fin_cases i <;> fin_cases j <;>
      norm_num [Dmat, Vsw2, QGc, Matrix.mul_apply, Matrix.diagonal,
        Fin.sum_univ_two, Matrix.vecHead, Matrix.vecTail]

lemma cex6Rs1 : (orthogonal_procrustes svdC6 (standardize rotD1)
    (standardize rotD1)).1 = 1 := by
  show (svdC6 ((standardize rotD1)ᵀ * standardize rotD1)).U *
      (svdC6 ((standardize rotD1)ᵀ * standardize rotD1)).Vt = 1
  rw [Gc_cross, svdC6_Gc]
  exact Vsw2_mul_self

lemma cex6Rs2 : (orthogonal_procrustes svdC6 (standardize rotD1)
    (standardize rotD1)).2 = 1 := by
  show (∑ i, (svdC6 ((standardize rotD1)ᵀ * standardize rotD1)).sv i) = 1
  rw [Gc_cross, svdC6_Gc]
  norm_num [Fin.sum_univ_two, Matrix.vecHead, Matrix.vecTail]

lemma Dmat_mul_Vsw2 : Dmat * Vsw2 = Qrot := by
  ext i j
  fin_cases i <;> fin_cases j <;>
    norm_num [Dmat, Vsw2, Qrot, Matrix.mul_apply, Fin.sum_univ_two,
      Matrix.vecHead, Matrix.vecTail]

lemma cex6Rs1' : (orthogonal_procrustes svdC6 (standardize rotD1)
    (standardize rotD2)).1 = Qrot := by
  show (svdC6 ((standardize rotD2)ᵀ * standardize rotD1)).U *
      (svdC6 ((standardize rotD2)ᵀ * standardize rotD1)).Vt = Qrot
  rw [QGc_cross, svdC6_QGc]
  exact Dmat_mul_Vsw2

lemma cex6Rs2' : (orthogonal_procrustes svdC6 (standardize rotD1)
    (standardize rotD2)).2 = 1 := by
  show (∑ i, (svdC6 ((standardize rotD2)ᵀ * standardize rotD1)).sv i) = 1
  rw [QGc_cross, svdC6_QGc]
  norm_num [Fin.sum_univ_two, Matrix.vecHead, Matrix.vecTail]

lemma cex6Key : standardize rotD2 * Qrotᵀ = -standardize rotD1 := by
  ext i j
  fin_cases i <;> fin_cases j <;>
    simp [standardize, normalizeMat, centerMat_rotD1, centerMat_rotD2,
      frobNorm_lit_r1, frobNorm_lit_r2, Qrot, Matrix.mul_apply,
      Matrix.transpose_apply, Fin.sum_univ_two, Matrix.neg_apply,
      Matrix.vecHead, Matrix.vecTail] <;>
    (try ring)

lemma cex6Disp1 : dispOf (procrustesMat svdC6 rotD1 rotD1) = 0 := by
  rw [procrustesMat_eq_ok svdC6 rotD1 rotD1 (by norm_num) (by norm_num)
    rotD1_ne rotD1_ne]
  simp only [dispOf, outOf]
  have hT : (orthogonal_procrustes svdC6 (standardize rotD1)
        (standardize rotD1)).2 •
      (standardize rotD1 * ((orthogonal_procrustes svdC6 (standardize rotD1)
        (standardize rotD1)).1)ᵀ) = standardize rotD1 := by
    rw [cex6Rs1, cex6Rs2, Matrix.transpose_one, Matrix.mul_one, one_smul]
  rw [hT]
  simp

lemma cex6Disp2 : dispOf (procrustesMat svdC6 rotD1 rotD2) = 4 := by
  rw [procrustesMat_eq_ok svdC6 rotD1 rotD2 (by norm_num) (by norm_num)
    rotD1_ne rotD2_ne]
  simp only [dispOf, outOf]
  have hT : (orthogonal_procrustes svdC6 (standardize rotD1)
        (standardize rotD2)).2 •
      (standardize rotD2 * ((orthogonal_procrustes svdC6 (standardize rotD1)
        (standardize rotD2)).1)ᵀ) = -standardize rotD1 := by
    rw [cex6Rs1', cex6Rs2', cex6Key, one_smul]
  rw [hT]
  have hpt : ∀ (i : Fin 4) (j : Fin 2),
      (standardize rotD1 i j - (-standardize rotD1) i j) ^ 2 =
        4 * (standardize rotD1 i j * standardize rotD1 i j) := by
    intro i j
    simp only [Matrix.neg_apply, sub_neg_eq_add]
    ring
  simp only [hpt, ← Finset.mul_sum]
  rw [show (∑ i, ∑ j, standardize rotD1 i j * standardize rotD1 i j) = 1 from
    fI_standardize_self rotD1 rotD1_ne]
  norm_num

lemma rotD2_eq : rotD2 = rotD1 * Qrotᵀ := by
  ext i j
  fin_cases i <;> fin_cases j <;>
    norm_num [rotD1, rotD2, Qrot, Matrix.mul_apply, Matrix.transpose_apply,
      Fin.sum_univ_two, Matrix.vecHead, Matrix.vecTail]

lemma Qrot_orth : IsOrth Qrot := by
  constructor <;>
  · ext i j
    fin_cases i <;> fin_cases j <;>
      norm_num [Qrot, Matrix.mul_apply, Matrix.transpose_apply, Fin.sum_univ_two,
        Matrix.one_apply, Matrix.vecHead, Matrix.vecTail]

lemma Qrot_det : Qrot.det = 1 := by
  rw [Matrix.det_fin_two]
  norm_num [Qrot, Matrix.vecHead, Matrix.vecTail]

/-- **C6 (counterexample).** With the solver as the spec specifies it
(`M = Bᵗ·A`, `R = U·Vᵗ`), disparity is not invariant under a rigid
transform of `data2`: `rotD2` is `rotD1` rotated by the proper rotation
`Qrot`, the SVD oracle `svdC6` returns genuine SVDs at both cross matrices,
yet `procrustes(rotD1, rotD1)` has disparity `0` while
`procrustes(rotD1, rotD2)` has disparity `4`. -/
theorem procrustes_rigid_invariance_counterexample :
    rotD2 = rotD1 * Qrotᵀ ∧ IsOrth Qrot ∧ Qrot.det = 1 ∧
      IsSVDOf (svdC6 ((standardize rotD1)ᵀ * standardize rotD1))
        ((standardize rotD1)ᵀ * standardize rotD1) ∧
      IsSVDOf (svdC6 ((standardize rotD2)ᵀ * standardize rotD1))
        ((standardize rotD2)ᵀ * standardize rotD1) ∧
      dispOf (procrustesMat svdC6 rotD1 rotD1) = 0 ∧
      dispOf (procrustesMat svdC6 rotD1 rotD2) = 4 ∧
      dispOf (procrustesMat svdC6 rotD1 rotD2) ≠
        dispOf (procrustesMat svdC6 rotD1 rotD1) := by
  refine ⟨rotD2_eq, Qrot_orth, Qrot_det, ?_, ?_, cex6Disp1, cex6Disp2, ?_⟩
  · rw [Gc_cross]
    exact isSVD_C6_Gc
  · rw [QGc_cross]
    exact isSVD_C6_QGc
  · rw [cex6Disp1, cex6Disp2]
    norm_num
